import Mathlib

/-! Shallow embedding of the harvester configuration library: the seeder
(seed/seed.go), the Redis poll watcher (monitor/redis/watcher.go), the
Consul push watcher (monitor/consul/watcher.go) and the monitor dispatcher
(the monitor package source). Go machine integers (uint64 versions) are
modelled as Nat: the code only stores and increments them, so no overflow
arithmetic is involved. -/

/-- Configuration value sources (config.Source), a closed enumeration. -/
inductive Source where
  | seed
  | env
  | flag
  | file
  | consul
  | redis
deriving DecidableEq, Repr

/-- Immutable change event (change.Change, built by change.New with a
source, key, value and version). -/
structure Change where
  source : Source
  key : String
  value : String
  version : Nat
deriving DecidableEq, Repr

/-- Result of a Getter.Get call that does not fail: the optional value
(the *string result, nil modelled as none) and the store-reported
version. -/
structure GetResp where
  value : Option String
  version : Nat
deriving DecidableEq, Repr

/-- External config.Field as the seeder and monitor see it: its Name(),
its Sources() map from source to the source-specific key, and the
behaviour of its Set(value, version) call, modelled by the predicate
setOk telling whether that Set call succeeds (Set is external: it parses
the text and may reject the update). -/
structure CField where
  name : String
  sources : Source → Option String
  setOk : String → Nat → Bool

/-- Ambient effects read by Seeder.Seed: the process environment
(os.LookupEnv), file contents (ioutil.ReadFile, an .error models a read
failure), the registered getters of the Seeder (getters map: none means
no getter registered for that source; a getter call either fails or
returns a GetResp), and the command-line flags explicitly present, as the
flag package's Visit exposes them after the per-argument tolerant parse
(association list from flag name to parsed value). -/
structure SeedCtx where
  envVars : String → Option String
  readFile : String → Except Unit String
  consulGetter : Option (String → Except Unit GetResp)
  redisGetter : Option (String → Except Unit GetResp)
  cliFlags : List (String × String)

/-- Errors returned by Seeder.Seed: a failing Field.Set call (carrying the
field name and the value/version passed to Set), a missing required
getter, or the final aggregated not-seeded error text. -/
inductive SeedError where
  | setFailed (field value : String) (version : Nat)
  | consulGetterRequired
  | redisGetterRequired
  | notSeeded (msg : String)
deriving DecidableEq, Repr

/-- Per-field state inside the seeding loop: the value cell last written
by a successful Field.Set (none when never set) and the field's seedMap
entry. -/
structure LoopSt where
  cell : Option (String × Nat)
  seeded : Bool
deriving DecidableEq, Repr

/-- One Field.Set call: on success the cell holds the given value and
version, on failure Seed aborts with that error (seed/seed.go returns the
Set error directly). -/
def trySet (f : CField) (v : String) (ver : Nat) : Except SeedError (String × Nat) :=
  if f.setOk v ver then .ok (v, ver) else .error (.setFailed f.name v ver)

/-- Seed-source block of the per-field loop: if the field has a seed
literal, apply it with version 0 and mark the field seeded. -/
def stepSeed (f : CField) (st : LoopSt) : Except SeedError LoopSt :=
  match f.sources Source.seed with
  | none => .ok st
  | some val =>
    match trySet f val 0 with
    | .error e => .error e
    | .ok c => .ok ⟨some c, true⟩

/-- Env-source block: look up the configured variable; apply it with
version 0 when the variable exists, otherwise only log. -/
def stepEnv (ctx : SeedCtx) (f : CField) (st : LoopSt) : Except SeedError LoopSt :=
  match f.sources Source.env with
  | none => .ok st
  | some key =>
    match ctx.envVars key with
    | none => .ok st
    | some val =>
      match trySet f val 0 with
      | .error e => .error e
      | .ok c => .ok ⟨some c, true⟩

/-- File-source block: read the file at the configured path; a read error
is logged and skipped, otherwise the content is applied with version 0. -/
def stepFile (ctx : SeedCtx) (f : CField) (st : LoopSt) : Except SeedError LoopSt :=
  match f.sources Source.file with
  | none => .ok st
  | some key =>
    match ctx.readFile key with
    | .error _ => .ok st
    | .ok body =>
      match trySet f body 0 with
      | .error e => .error e
      | .ok c => .ok ⟨some c, true⟩

/-- Consul-source block: a missing getter is fatal; a lookup error or a
nil value triggers the Go continue statement of the surrounding for loop,
reported here as the Bool component (true means the rest of this field's
loop body is skipped); otherwise the value is applied with the
store-reported version. -/
def stepConsul (ctx : SeedCtx) (f : CField) (st : LoopSt) :
    Except SeedError (LoopSt × Bool) :=
  match f.sources Source.consul with
  | none => .ok (st, false)
  | some key =>
    match ctx.consulGetter with
    | none => .error .consulGetterRequired
    | some gtr =>
      match gtr key with
      | .error _ => .ok (st, true)
      | .ok resp =>
        match resp.value with
        | none => .ok (st, true)
        | some v =>
          match trySet f v resp.version with
          | .error e => .error e
          | .ok c => .ok (⟨some c, true⟩, false)

/-- Redis-source block, same pattern as the Consul block with its own
required getter. -/
def stepRedis (ctx : SeedCtx) (f : CField) (st : LoopSt) :
    Except SeedError (LoopSt × Bool) :=
  match f.sources Source.redis with
  | none => .ok (st, false)
  | some key =>
    match ctx.redisGetter with
    | none => .error .redisGetterRequired
    | some gtr =>
      match gtr key with
      | .error _ => .ok (st, true)
      | .ok resp =>
        match resp.value with
        | none => .ok (st, true)
        | some v =>
          match trySet f v resp.version with
          | .error e => .error e
          | .ok c => .ok (⟨some c, true⟩, false)

/-- Body of the per-field loop of Seeder.Seed, in the source's order:
seed, env, (flag registration, which applies nothing here), file, consul,
redis. A true continue flag from the consul block skips the redis block,
exactly as the Go continue statement skips the remainder of that field's
loop iteration. -/
def seedFieldLoop (ctx : SeedCtx) (f : CField) : Except SeedError LoopSt :=
  match stepSeed f ⟨none, false⟩ with
  | .error e => .error e
  | .ok st =>
    match stepEnv ctx f st with
    | .error e => .error e
    | .ok st =>
      match stepFile ctx f st with
      | .error e => .error e
      | .ok st =>
        match stepConsul ctx f st with
        | .error e => .error e
        | .ok (st, true) => .ok st
        | .ok (st, false) =>
          match stepRedis ctx f st with
          | .error e => .error e
          | .ok (st, _) => .ok st

/-- State of one field after the per-field loop: the field itself, its
value cell and its seedMap entry. The flag key needs no extra record: the
loop registers it unconditionally before any continue can fire, so the
deferred flag phase reads it from the field's Sources() map. -/
structure FieldState where
  field : CField
  cell : Option (String × Nat)
  seeded : Bool

/-- The per-field loop of Seeder.Seed over all fields of the config, in
declaration order; the first fatal error aborts. -/
def seedLoop (ctx : SeedCtx) : List CField → Except SeedError (List FieldState)
  | [] => .ok []
  | f :: fs =>
    match seedFieldLoop ctx f with
    | .error e => .error e
    | .ok st =>
      match seedLoop ctx fs with
      | .error e => .error e
      | .ok rest => .ok (⟨f, st.cell, st.seeded⟩ :: rest)

/-- Flag lookup against the explicitly present command-line flags
(flagSet.Visit reports exactly the flags that were set). -/
def lookupFlag (flags : List (String × String)) (key : String) : Option String :=
  match flags.find? (fun p => p.fst = key) with
  | none => none
  | some p => some p.snd

/-- Deferred flag application for one recorded flag binding: applied with
version 0 only when the flag was explicitly present on the command line;
absence does not overwrite. -/
def applyFlag (ctx : SeedCtx) (st : FieldState) : Except SeedError FieldState :=
  match st.field.sources Source.flag with
  | none => .ok st
  | some key =>
    match lookupFlag ctx.cliFlags key with
    | none => .ok st
    | some val =>
      match trySet st.field val 0 with
      | .error e => .error e
      | .ok c => .ok ⟨st.field, some c, true⟩

/-- Deferred flag phase over all recorded bindings, in field order. -/
def applyFlags (ctx : SeedCtx) : List FieldState → Except SeedError (List FieldState)
  | [] => .ok []
  | st :: sts =>
    match applyFlag ctx st with
    | .error e => .error e
    | .ok st2 =>
      match applyFlags ctx sts with
      | .error e => .error e
      | .ok rest => .ok (st2 :: rest)

/-- The aggregated error text built by the strings.Builder at the end of
Seed: one fragment per field still unseeded (map iteration order over the
seedMap is modelled as field declaration order; the claims checked below
do not depend on the order). -/
def unseededMsg : List FieldState → String
  | [] => ""
  | st :: sts =>
    (if st.seeded then "" else "field " ++ st.field.name ++ " not seeded") ++
      unseededMsg sts

/-- Seeder.Seed: run the per-field loop, then the deferred flag phase,
then return the final field states together with the aggregated
not-seeded error (none when every field was seeded). Fatal errors (a
failing Set, a missing required getter) abort with that error. -/
def seedRun (ctx : SeedCtx) (fields : List CField) :
    Except SeedError (List FieldState × Option String) :=
  match seedLoop ctx fields with
  | .error e => .error e
  | .ok sts =>
    match applyFlags ctx sts with
    | .error e => .error e
    | .ok sts2 =>
      if (unseededMsg sts2).length > 0 then .ok (sts2, some (unseededMsg sts2))
      else .ok (sts2, none)

-- Scratch sanity checks of the embedding on concrete inputs.
def ctxScratch : SeedCtx where
  envVars := fun k => if k = "LOG" then some "INFO" else none
  readFile := fun _ => .error ()
  consulGetter := none
  redisGetter := none
  cliFlags := []

def fieldScratch : CField where
  name := "loglevel"
  sources := fun s =>
    match s with
    | Source.seed => some "DEBUG"
    | Source.env => some "LOG"
    | _ => none
  setOk := fun _ _ => true

example :
    (seedRun ctxScratch [fieldScratch]).map (fun r => (r.fst.map (·.cell), r.snd)) =
      .ok ([some ("INFO", 0)], none) := by
  rfl

/-! Helper lemmas about the seeding loop. -/

/-- A fatal per-field error inside the loop aborts the loop with that
error, independently of the fields that follow. -/
theorem seedLoop_append_error (ctx : SeedCtx) (fs1 : List CField) (f : CField)
    (fs2 : List CField) (sts1 : List FieldState) (e : SeedError)
    (h1 : seedLoop ctx fs1 = .ok sts1) (h2 : seedFieldLoop ctx f = .error e) :
    seedLoop ctx (fs1 ++ f :: fs2) = .error e := by
  induction fs1 generalizing sts1 with
  | nil => simp [seedLoop, h2]
  | cons g gs ih =>
    rw [seedLoop] at h1
    cases hg : seedFieldLoop ctx g with
    | error e2 => rw [hg] at h1; exact absurd h1 (by simp)
    | ok st =>
      rw [hg] at h1
      cases hrest : seedLoop ctx gs with
      | error e2 => rw [hrest] at h1; exact absurd h1 (by simp)
      | ok rest =>
        have := ih rest hrest
        simp only [List.cons_append, seedLoop, List.append_eq, hg, this]

/-- C10: a Field.Set error while applying any source is fatal: Seed
returns that error at once, later fields are never processed (the result
is the same for every continuation of the field list), and the aggregated
not-seeded error is never produced. Part one covers a Set error inside
the per-field loop (seed, env, file, consul or redis block), part two a
Set error in the deferred flag phase. -/
theorem seed_set_error_fatal :
    (∀ (ctx : SeedCtx) (fs1 : List CField) (f : CField) (fs2 : List CField)
        (sts1 : List FieldState) (n v : String) (ver : Nat),
        seedLoop ctx fs1 = .ok sts1 →
        seedFieldLoop ctx f = .error (.setFailed n v ver) →
        seedRun ctx (fs1 ++ f :: fs2) = .error (.setFailed n v ver)) ∧
    (∀ (ctx : SeedCtx) (fs : List CField) (sts : List FieldState)
        (n v : String) (ver : Nat),
        seedLoop ctx fs = .ok sts →
        applyFlags ctx sts = .error (.setFailed n v ver) →
        seedRun ctx fs = .error (.setFailed n v ver)) := by
  constructor
  · intro ctx fs1 f fs2 sts1 n v ver h1 h2
    have := seedLoop_append_error ctx fs1 f fs2 sts1 _ h1 h2
    simp [seedRun, this]
  · intro ctx fs sts n v ver h1 h2
    simp [seedRun, h1, h2]

def ctxW10 : SeedCtx where
  envVars := fun _ => none
  readFile := fun _ => .error ()
  consulGetter := none
  redisGetter := none
  cliFlags := []

def fieldBad10 : CField where
  name := "x"
  sources := fun s => match s with | Source.seed => some "boom" | _ => none
  setOk := fun _ _ => false

def fieldOther10 : CField where
  name := "y"
  sources := fun s => match s with | Source.seed => some "ok" | _ => none
  setOk := fun _ _ => true

/-- Witness for C10 at a concrete input: the first field's Set fails on
its seed value, so Seed returns that Set error even though a later field
exists and would have seeded fine. -/
theorem seed_set_error_fatal_witness :
    seedRun ctxW10 [fieldBad10, fieldOther10] = .error (.setFailed "x" "boom" 0) :=
  seed_set_error_fatal.1 ctxW10 [] fieldBad10 [fieldOther10] [] "x" "boom" 0 rfl rfl

/-! Aggregated not-seeded error (C3). -/

/-- The aggregated message is non-empty exactly when some field is still
unseeded. -/
theorem unseededMsg_pos_iff (sts : List FieldState) :
    0 < (unseededMsg sts).length ↔ ∃ st ∈ sts, st.seeded = false := by
  induction sts with
  | nil =>
    rw [unseededMsg]
    simp [show ("" : String).length = 0 from rfl]
  | cons st sts ih =>
    rw [unseededMsg, String.length_append]
    cases hs : st.seeded with
    | true => simp [hs, ih, show ("" : String).length = 0 from rfl]
    | false =>
      rw [if_neg (show ¬(false = true) by decide)]
      constructor
      · intro _; exact ⟨st, List.mem_cons_self st sts, hs⟩
      · intro _
        rw [String.length_append, String.length_append]
        have h6 : ("field " : String).length = 6 := rfl
        omega

/-- Every unseeded field's name appears in the aggregated message: the
message decomposes around the fragment for that field. -/
theorem unseededMsg_names (sts : List FieldState) (st : FieldState)
    (hmem : st ∈ sts) (hun : st.seeded = false) :
    ∃ l r, unseededMsg sts = l ++ ("field " ++ st.field.name ++ " not seeded") ++ r := by
  induction sts with
  | nil => cases hmem
  | cons hd tl ih =>
    rw [unseededMsg]
    rcases List.mem_cons.mp hmem with heq | hmem2
    · subst heq
      refine ⟨"", unseededMsg tl, ?_⟩
      have hif : (if st.seeded = true then "" else "field " ++ st.field.name ++ " not seeded")
          = "field " ++ st.field.name ++ " not seeded" := by rw [hun]; rfl
      rw [hif, String.empty_append]
    · obtain ⟨l, r, hlr⟩ := ih hmem2
      refine ⟨(if hd.seeded then "" else "field " ++ hd.field.name ++ " not seeded") ++ l, r, ?_⟩
      rw [hlr, ← String.append_assoc, ← String.append_assoc]

/-- The seed block preserves the seeded-implies-set invariant. -/
theorem stepSeed_inv (f : CField) (st st' : LoopSt) (h : stepSeed f st = .ok st')
    (hin : st.seeded = true → st.cell.isSome) :
    st'.seeded = true → st'.cell.isSome := by
  rw [stepSeed.eq_def] at h
  split at h
  · cases h; exact hin
  · split at h
    · cases h
    · cases h; simp

/-- The env block preserves the seeded-implies-set invariant. -/
theorem stepEnv_inv (ctx : SeedCtx) (f : CField) (st st' : LoopSt)
    (h : stepEnv ctx f st = .ok st')
    (hin : st.seeded = true → st.cell.isSome) :
    st'.seeded = true → st'.cell.isSome := by
  rw [stepEnv.eq_def] at h
  split at h
  · cases h; exact hin
  · split at h
    · cases h; exact hin
    · split at h
      · cases h
      · cases h; simp

/-- The file block preserves the seeded-implies-set invariant. -/
theorem stepFile_inv (ctx : SeedCtx) (f : CField) (st st' : LoopSt)
    (h : stepFile ctx f st = .ok st')
    (hin : st.seeded = true → st.cell.isSome) :
    st'.seeded = true → st'.cell.isSome := by
  rw [stepFile.eq_def] at h
  split at h
  · cases h; exact hin
  · split at h
    · cases h; exact hin
    · split at h
      · cases h
      · cases h; simp

/-- The consul block preserves the seeded-implies-set invariant. -/
theorem stepConsul_inv (ctx : SeedCtx) (f : CField) (st : LoopSt)
    (p : LoopSt × Bool) (h : stepConsul ctx f st = .ok p)
    (hin : st.seeded = true → st.cell.isSome) :
    p.fst.seeded = true → p.fst.cell.isSome := by
  rw [stepConsul.eq_def] at h
  split at h
  · cases h; exact hin
  · split at h
    · cases h
    · split at h
      · cases h; exact hin
      · split at h
        · cases h; exact hin
        · split at h
          · cases h
          · cases h; simp

/-- The redis block preserves the seeded-implies-set invariant. -/
theorem stepRedis_inv (ctx : SeedCtx) (f : CField) (st : LoopSt)
    (p : LoopSt × Bool) (h : stepRedis ctx f st = .ok p)
    (hin : st.seeded = true → st.cell.isSome) :
    p.fst.seeded = true → p.fst.cell.isSome := by
  rw [stepRedis.eq_def] at h
  split at h
  · cases h; exact hin
  · split at h
    · cases h
    · split at h
      · cases h; exact hin
      · split at h
        · cases h; exact hin
        · split at h
          · cases h
          · cases h; simp

/-- A field marked seeded by the per-field loop holds an applied value. -/
theorem seedFieldLoop_seeded_cell (ctx : SeedCtx) (f : CField) (st : LoopSt)
    (h : seedFieldLoop ctx f = .ok st) (hs : st.seeded = true) : st.cell.isSome := by
  rw [seedFieldLoop.eq_def] at h
  split at h
  · cases h
  · rename_i st1 h1
    split at h
    · cases h
    · rename_i st2 h2
      split at h
      · cases h
      · rename_i st3 h3
        split at h
        · cases h
        · rename_i st4 h4
          cases h
          exact stepConsul_inv ctx f st3 (st, true) h4
            (stepFile_inv ctx f st2 st3 h3
              (stepEnv_inv ctx f st1 st2 h2
                (stepSeed_inv f ⟨none, false⟩ st1 h1 (by simp)))) hs
        · rename_i st4 h4
          split at h
          · cases h
          · rename_i st5 b h5
            cases h
            exact stepRedis_inv ctx f st4 (st, b) h5
              (stepConsul_inv ctx f st3 (st4, false) h4
                (stepFile_inv ctx f st2 st3 h3
                  (stepEnv_inv ctx f st1 st2 h2
                    (stepSeed_inv f ⟨none, false⟩ st1 h1 (by simp))))) hs

/-- The per-field loop only marks a field seeded when a value was set. -/
theorem seedLoop_seeded_cell (ctx : SeedCtx) (fs : List CField)
    (sts : List FieldState) (h : seedLoop ctx fs = .ok sts) :
    ∀ st ∈ sts, st.seeded = true → st.cell.isSome := by
  induction fs generalizing sts with
  | nil => rw [seedLoop] at h; cases h; intro st hmem; cases hmem
  | cons f fs ih =>
    rw [seedLoop] at h
    cases h1 : seedFieldLoop ctx f with
    | error e => rw [h1] at h; exact absurd h (by simp)
    | ok st1 =>
      rw [h1] at h
      cases h2 : seedLoop ctx fs with
      | error e => rw [h2] at h; exact absurd h (by simp)
      | ok rest =>
        rw [h2] at h; cases h
        intro st hmem hs
        rcases List.mem_cons.mp hmem with heq | hmem2
        · subst heq
          exact seedFieldLoop_seeded_cell ctx f st1 h1 hs
        · exact ih rest h2 st hmem2 hs

/-- Deferred flag application preserves the seeded-implies-set
invariant for one field state. -/
theorem applyFlag_inv (ctx : SeedCtx) (st st' : FieldState)
    (h : applyFlag ctx st = .ok st')
    (hin : st.seeded = true → st.cell.isSome) :
    st'.seeded = true → st'.cell.isSome := by
  rw [applyFlag.eq_def] at h
  split at h
  · cases h; exact hin
  · split at h
    · cases h; exact hin
    · split at h
      · cases h
      · cases h; simp

/-- The deferred flag phase preserves the seeded-implies-set invariant. -/
theorem applyFlags_seeded_cell (ctx : SeedCtx) (sts sts2 : List FieldState)
    (h : applyFlags ctx sts = .ok sts2)
    (hinv : ∀ st ∈ sts, st.seeded = true → st.cell.isSome) :
    ∀ st ∈ sts2, st.seeded = true → st.cell.isSome := by
  induction sts generalizing sts2 with
  | nil => rw [applyFlags] at h; cases h; intro st hmem; cases hmem
  | cons hd tl ih =>
    rw [applyFlags] at h
    cases h1 : applyFlag ctx hd with
    | error e => rw [h1] at h; exact absurd h (by simp)
    | ok st1 =>
      rw [h1] at h
      cases h2 : applyFlags ctx tl with
      | error e => rw [h2] at h; exact absurd h (by simp)
      | ok rest =>
        rw [h2] at h; cases h
        intro st hmem hs
        rcases List.mem_cons.mp hmem with heq | hmem2
        · subst heq
          exact applyFlag_inv ctx hd st h1 (hinv hd (by simp)) hs
        · exact ih rest h2 (fun st hm => hinv st (by simp [hm])) st hmem2 hs

/-- C3: after a completed Seed call (no fatal error), the returned error
is present exactly when some field received no value from any applicable
source; when present it is the single aggregated message in which every
unseeded field is named by a "field NAME not seeded" fragment; and every
field marked seeded holds an applied value alongside the error (partial
success with trailing error). -/
theorem seed_aggregated_error :
    ∀ (ctx : SeedCtx) (fields : List CField) (sts : List FieldState)
      (err : Option String),
      seedRun ctx fields = .ok (sts, err) →
      (err.isSome ↔ ∃ st ∈ sts, st.seeded = false) ∧
      (∀ msg, err = some msg → ∀ st ∈ sts, st.seeded = false →
        ∃ l r, msg = l ++ ("field " ++ st.field.name ++ " not seeded") ++ r) ∧
      (∀ st ∈ sts, st.seeded = true → st.cell.isSome) := by
  intro ctx fields sts err h
  rw [seedRun.eq_def] at h
  split at h
  · cases h
  · rename_i sts0 h1
    split at h
    · cases h
    · rename_i sts2 h2
      have hinv := applyFlags_seeded_cell ctx sts0 sts2 h2
        (seedLoop_seeded_cell ctx fields sts0 h1)
      split at h
      · rename_i hpos
        cases h
        refine ⟨?_, ?_, hinv⟩
        · simp only [Option.isSome_some, true_iff]
          exact (unseededMsg_pos_iff sts).mp hpos
        · intro msg hmsg st hmem hun
          cases hmsg
          exact unseededMsg_names sts st hmem hun
      · rename_i hpos
        cases h
        refine ⟨?_, ?_, hinv⟩
        · simp only [Option.isSome_none, Bool.false_eq_true, false_iff]
          intro hex
          have := (unseededMsg_pos_iff sts).mpr hex
          omega
        · intro msg hmsg; cases hmsg

def fieldA3 : CField where
  name := "a"
  sources := fun s => match s with | Source.seed => some "v" | _ => none
  setOk := fun _ _ => true

def fieldB3 : CField where
  name := "b"
  sources := fun _ => none
  setOk := fun _ _ => true

def fieldC3 : CField where
  name := "c"
  sources := fun _ => none
  setOk := fun _ _ => true

def stsW3 : List FieldState :=
  [⟨fieldA3, some ("v", 0), true⟩, ⟨fieldB3, none, false⟩, ⟨fieldC3, none, false⟩]

/-- Witness for C3 at the spec's concrete aggregation scenario: three
fields, one seedable and two with no applicable source; the call
completes with the aggregated message naming exactly the two unseedable
fields while the first field keeps its applied value. -/
theorem seed_aggregated_error_witness :
    ((some "field b not seededfield c not seeded" : Option String).isSome ↔
      ∃ st ∈ stsW3, st.seeded = false) ∧
    (∀ msg, (some "field b not seededfield c not seeded" : Option String) = some msg →
      ∀ st ∈ stsW3, st.seeded = false →
        ∃ l r, msg = l ++ ("field " ++ st.field.name ++ " not seeded") ++ r) ∧
    (∀ st ∈ stsW3, st.seeded = true → st.cell.isSome) :=
  seed_aggregated_error ctxW10 [fieldA3, fieldB3, fieldC3] stsW3
    (some "field b not seededfield c not seeded") rfl

/-! Consul lookup failure during seeding (C1). -/

/-- Lookup outcome that triggers the continue statement in the consul and
redis blocks: the getter call failed, or it returned no value. -/
def lookupMisses (r : Except Unit GetResp) : Prop :=
  match r with
  | .error _ => True
  | .ok resp => resp.value = none

/-- The per-field loop truncated before the consul block: seed, env and
file only (the flag source registers its key elsewhere and applies
nothing inside the loop). -/
def preConsul (ctx : SeedCtx) (f : CField) : Except SeedError LoopSt :=
  match stepSeed f ⟨none, false⟩ with
  | .error e => .error e
  | .ok st =>
    match stepEnv ctx f st with
    | .error e => .error e
    | .ok st => stepFile ctx f st

/-- A consul lookup that fails or misses makes the consul block report
the continue signal without touching the state. -/
theorem stepConsul_misses (ctx : SeedCtx) (f : CField) (key : String)
    (g : String → Except Unit GetResp) (st : LoopSt)
    (h1 : f.sources Source.consul = some key)
    (h2 : ctx.consulGetter = some g) (h3 : lookupMisses (g key)) :
    stepConsul ctx f st = .ok (st, true) := by
  rw [stepConsul.eq_def, h1, h2]
  cases hg : g key with
  | error e => simp [hg]
  | ok resp =>
    have h4 : resp.value = none := by rw [hg] at h3; exact h3
    simp [hg, h4]

def redisG1 : String → Except Unit GetResp := fun _ => .ok ⟨some "RV", 5⟩

def ctxC1 : SeedCtx where
  envVars := fun _ => none
  readFile := fun _ => .error ()
  consulGetter := some (fun _ => .error ())
  redisGetter := some redisG1
  cliFlags := []

def fieldC1 : CField where
  name := "f1"
  sources := fun s =>
    match s with
    | Source.consul => some "ck"
    | Source.redis => some "rk"
    | _ => none
  setOk := fun _ _ => true

/-- Counterexample to C1 as stated: the field configures both consul and
redis; the consul lookup errors; the redis getter is registered and would
return a value for the field's redis key; yet after Seed the field holds
no value and is reported not seeded — the remaining source (redis) was
never tried, because the continue statement in the consul block skips the
rest of that field's loop iteration. -/
theorem seed_consul_failure_counterexample :
    fieldC1.sources Source.redis = some "rk" ∧
    ctxC1.redisGetter = some redisG1 ∧
    redisG1 "rk" = .ok ⟨some "RV", 5⟩ ∧
    (seedRun ctxC1 [fieldC1]).map (fun r => (r.fst.map (·.cell), r.snd)) =
      .ok ([none], some "field f1 not seeded") :=
  ⟨rfl, rfl, rfl, rfl⟩

/-- C1 amended: a consul lookup error or missing value is indeed
non-fatal and the Seed call continues with the next field, but within the
failing field it skips the whole remainder of the loop iteration, redis
included (the deferred flag phase is unaffected since the flag key was
registered earlier); for redis, the last in-loop source, the failure
skips nothing further. Conjunct one: the field's loop result is exactly
the pre-consul state. Conjunct two: the redis getter is never consulted
(the result is invariant under replacing it). Conjunct three: the loop
proceeds to the remaining fields normally. -/
theorem seed_consul_failure_skips_redis :
    ∀ (ctx : SeedCtx) (f : CField) (key : String)
      (g : String → Except Unit GetResp),
      f.sources Source.consul = some key →
      ctx.consulGetter = some g →
      lookupMisses (g key) →
      (seedFieldLoop ctx f = preConsul ctx f) ∧
      (∀ g2, seedFieldLoop { ctx with redisGetter := g2 } f = seedFieldLoop ctx f) ∧
      (∀ fs st, preConsul ctx f = .ok st →
        seedLoop ctx (f :: fs) =
          (seedLoop ctx fs).map (fun rest => ⟨f, st.cell, st.seeded⟩ :: rest)) := by
  intro ctx f key g h1 h2 h3
  have main : ∀ (ctx2 : SeedCtx), ctx2.consulGetter = some g →
      seedFieldLoop ctx2 f = preConsul ctx2 f := by
    intro ctx2 h2b
    rw [seedFieldLoop.eq_def, preConsul.eq_def]
    cases hA : stepSeed f ⟨none, false⟩ with
    | error e => rfl
    | ok st1 =>
      dsimp only
      cases hB : stepEnv ctx2 f st1 with
      | error e => rfl
      | ok st2 =>
        dsimp only
        cases hC : stepFile ctx2 f st2 with
        | error e => rfl
        | ok st3 =>
          dsimp only
          rw [stepConsul_misses ctx2 f key g st3 h1 h2b h3]
  refine ⟨main ctx h2, ?_, ?_⟩
  · intro g2
    rw [main ctx h2, main { ctx with redisGetter := g2 } h2]
    rfl
  · intro fs st hpre
    have hfl : seedFieldLoop ctx f = .ok st := by rw [main ctx h2, hpre]
    rw [seedLoop, hfl]
    cases hr : seedLoop ctx fs with
    | error e => simp [Except.map]
    | ok rest => simp [Except.map]

/-- Witness for the amended C1 at a concrete input: the consul getter
always errors, the redis getter would answer, and the three conjuncts
hold for that field. -/
theorem seed_consul_failure_skips_redis_witness :
    (seedFieldLoop ctxC1 fieldC1 = preConsul ctxC1 fieldC1) ∧
    (∀ g2, seedFieldLoop { ctxC1 with redisGetter := g2 } fieldC1 =
      seedFieldLoop ctxC1 fieldC1) ∧
    (∀ fs st, preConsul ctxC1 fieldC1 = .ok st →
      seedLoop ctxC1 (fieldC1 :: fs) =
        (seedLoop ctxC1 fs).map (fun rest => ⟨fieldC1, st.cell, st.seeded⟩ :: rest)) :=
  seed_consul_failure_skips_redis ctxC1 fieldC1 "ck" (fun _ => .error ())
    rfl rfl True.intro

/-! Seeding precedence (C2). -/

/-- Value the seed source contributes for a field, if applicable. -/
def appSeed (f : CField) : Option (String × Nat) :=
  (f.sources Source.seed).map (fun v => (v, 0))

/-- Value the env source contributes: configured and variable present. -/
def appEnv (ctx : SeedCtx) (f : CField) : Option (String × Nat) :=
  match f.sources Source.env with
  | none => none
  | some key => (ctx.envVars key).map (fun v => (v, 0))

/-- Value the file source contributes: configured and readable. -/
def appFile (ctx : SeedCtx) (f : CField) : Option (String × Nat) :=
  match f.sources Source.file with
  | none => none
  | some key =>
    match ctx.readFile key with
    | .error _ => none
    | .ok body => some (body, 0)

/-- Value the consul source contributes: configured, getter registered,
lookup succeeded with a value, paired with the store version. -/
def appConsul (ctx : SeedCtx) (f : CField) : Option (String × Nat) :=
  match f.sources Source.consul with
  | none => none
  | some key =>
    match ctx.consulGetter with
    | none => none
    | some g =>
      match g key with
      | .error _ => none
      | .ok resp =>
        match resp.value with
        | none => none
        | some v => some (v, resp.version)

/-- Value the redis source contributes, same pattern as consul. -/
def appRedis (ctx : SeedCtx) (f : CField) : Option (String × Nat) :=
  match f.sources Source.redis with
  | none => none
  | some key =>
    match ctx.redisGetter with
    | none => none
    | some g =>
      match g key with
      | .error _ => none
      | .ok resp =>
        match resp.value with
        | none => none
        | some v => some (v, resp.version)

/-- Value the flag source contributes: configured and flag explicitly
present on the command line. -/
def appFlag (ctx : SeedCtx) (f : CField) : Option (String × Nat) :=
  match f.sources Source.flag with
  | none => none
  | some key => (lookupFlag ctx.cliFlags key).map (fun v => (v, 0))

/-- Modelled from the spec: the final seeded value of a field under the
fixed precedence order Seed, Env, File, Consul, Redis and then the
deferred Flag, each later applicable source overwriting the earlier value
(last-applicable-source-wins), a non-applicable source not overwriting. -/
def specFinal (ctx : SeedCtx) (f : CField) : Option (String × Nat) :=
  appFlag ctx f <|> appRedis ctx f <|> appConsul ctx f <|>
    appFile ctx f <|> appEnv ctx f <|> appSeed f

/-- Value cell of a field after the in-loop sources, when every
configured store lookup is clean. -/
def loopCell (ctx : SeedCtx) (f : CField) : Option (String × Nat) :=
  appRedis ctx f <|> appConsul ctx f <|> appFile ctx f <|>
    appEnv ctx f <|> appSeed f

/-- SeedMap entry of a field after the in-loop sources. -/
def loopSeeded (ctx : SeedCtx) (f : CField) : Bool :=
  (appSeed f).isSome || (appEnv ctx f).isSome || (appFile ctx f).isSome ||
    (appConsul ctx f).isSome || (appRedis ctx f).isSome

/-- Premise of the amended precedence claim: the field's Set calls
succeed, a configured consul source has a registered getter whose lookup
yields a value (otherwise the consul continue would skip the redis
block), and a configured redis source has a registered getter (its lookup
may still fail, which only makes redis non-applicable). -/
def cleanField (ctx : SeedCtx) (f : CField) : Prop :=
  (∀ v ver, f.setOk v ver = true) ∧
  (∀ key, f.sources Source.consul = some key →
    ∃ g, ctx.consulGetter = some g ∧ ∃ v ver, g key = .ok ⟨some v, ver⟩) ∧
  (∀ key, f.sources Source.redis = some key → ctx.redisGetter ≠ none)

theorem stepSeed_val (f : CField) (st : LoopSt)
    (hset : ∀ v ver, f.setOk v ver = true) :
    stepSeed f st = .ok ⟨appSeed f <|> st.cell, st.seeded || (appSeed f).isSome⟩ := by
  rw [stepSeed.eq_def, appSeed]
  cases f.sources Source.seed with
  | none => simp
  | some val => simp [trySet, hset]

theorem stepEnv_val (ctx : SeedCtx) (f : CField) (st : LoopSt)
    (hset : ∀ v ver, f.setOk v ver = true) :
    stepEnv ctx f st =
      .ok ⟨appEnv ctx f <|> st.cell, st.seeded || (appEnv ctx f).isSome⟩ := by
  rw [stepEnv.eq_def, appEnv.eq_def]
  cases f.sources Source.env with
  | none => simp
  | some key =>
    cases henv : ctx.envVars key with
    | none => simp [henv]
    | some val => simp [henv, trySet, hset]

theorem stepFile_val (ctx : SeedCtx) (f : CField) (st : LoopSt)
    (hset : ∀ v ver, f.setOk v ver = true) :
    stepFile ctx f st =
      .ok ⟨appFile ctx f <|> st.cell, st.seeded || (appFile ctx f).isSome⟩ := by
  rw [stepFile.eq_def, appFile.eq_def]
  cases f.sources Source.file with
  | none => simp
  | some key =>
    cases hrf : ctx.readFile key with
    | error u => simp [hrf]
    | ok body => simp [hrf, trySet, hset]

theorem stepConsul_val (ctx : SeedCtx) (f : CField) (st : LoopSt)
    (hset : ∀ v ver, f.setOk v ver = true)
    (hcons : ∀ key, f.sources Source.consul = some key →
      ∃ g, ctx.consulGetter = some g ∧ ∃ v ver, g key = .ok ⟨some v, ver⟩) :
    stepConsul ctx f st =
      .ok (⟨appConsul ctx f <|> st.cell, st.seeded || (appConsul ctx f).isSome⟩,
        false) := by
  rw [stepConsul.eq_def, appConsul.eq_def]
  cases hsrc : f.sources Source.consul with
  | none => simp
  | some key =>
    obtain ⟨g, hg, v, ver, hgk⟩ := hcons key hsrc
    simp [hg, hgk, trySet, hset]

theorem stepRedis_val (ctx : SeedCtx) (f : CField) (st : LoopSt)
    (hset : ∀ v ver, f.setOk v ver = true)
    (hred : ∀ key, f.sources Source.redis = some key → ctx.redisGetter ≠ none) :
    stepRedis ctx f st =
      .ok (⟨appRedis ctx f <|> st.cell, st.seeded || (appRedis ctx f).isSome⟩,
        (f.sources Source.redis).isSome && (appRedis ctx f).isNone) := by
  rw [stepRedis.eq_def, appRedis.eq_def]
  cases hsrc : f.sources Source.redis with
  | none => simp [hsrc]
  | some key =>
    cases hg : ctx.redisGetter with
    | none => exact absurd hg (hred key hsrc)
    | some g =>
      cases hgk : g key with
      | error u => simp [hsrc, hg, hgk]
      | ok resp =>
        cases hval : resp.value with
        | none => simp [hsrc, hg, hgk, hval]
        | some v => simp [hsrc, hg, hgk, hval, trySet, hset]

/-- Under clean lookups the per-field loop computes exactly the
last-applicable value of the in-loop sources. -/
theorem seedFieldLoop_clean (ctx : SeedCtx) (f : CField) (hc : cleanField ctx f) :
    seedFieldLoop ctx f = .ok ⟨loopCell ctx f, loopSeeded ctx f⟩ := by
  obtain ⟨hset, hcons, hred⟩ := hc
  rw [seedFieldLoop.eq_def, stepSeed_val f _ hset]
  dsimp only
  rw [stepEnv_val ctx f _ hset]
  dsimp only
  rw [stepFile_val ctx f _ hset]
  dsimp only
  rw [stepConsul_val ctx f _ hset hcons]
  dsimp only
  rw [stepRedis_val ctx f _ hset hred]
  dsimp only
  rw [loopCell, loopSeeded]
  simp [Option.orElse_none, Bool.false_or]

/-- The per-field loop over a clean field list. -/
theorem seedLoop_clean (ctx : SeedCtx) (fields : List CField)
    (hc : ∀ f ∈ fields, cleanField ctx f) :
    seedLoop ctx fields =
      .ok (fields.map (fun f => ⟨f, loopCell ctx f, loopSeeded ctx f⟩)) := by
  induction fields with
  | nil => rfl
  | cons f fs ih =>
    rw [seedLoop, seedFieldLoop_clean ctx f (hc f (by simp)),
      ih (fun g hg => hc g (by simp [hg]))]
    rfl

/-- Deferred flag application on a field state produced by the loop. -/
theorem applyFlag_clean (ctx : SeedCtx) (f : CField) (c : Option (String × Nat))
    (b : Bool) (hset : ∀ v ver, f.setOk v ver = true) :
    applyFlag ctx ⟨f, c, b⟩ =
      .ok ⟨f, appFlag ctx f <|> c, b || (appFlag ctx f).isSome⟩ := by
  rw [applyFlag.eq_def, appFlag.eq_def]
  dsimp only
  cases hsrc : f.sources Source.flag with
  | none => simp [hsrc]
  | some key =>
    cases hlf : lookupFlag ctx.cliFlags key with
    | none => simp [hsrc, hlf]
    | some val => simp [hsrc, hlf, trySet, hset]

/-- The deferred flag phase over the loop's output states. -/
theorem applyFlags_clean (ctx : SeedCtx) (fields : List CField)
    (hset : ∀ f ∈ fields, ∀ v ver, f.setOk v ver = true) :
    applyFlags ctx (fields.map (fun f => ⟨f, loopCell ctx f, loopSeeded ctx f⟩)) =
      .ok (fields.map (fun f =>
        ⟨f, specFinal ctx f, loopSeeded ctx f || (appFlag ctx f).isSome⟩)) := by
  induction fields with
  | nil => rfl
  | cons f fs ih =>
    rw [List.map_cons, applyFlags, applyFlag_clean ctx f _ _ (hset f (by simp)),
      ih (fun g hg v ver => hset g (by simp [hg]) v ver)]
    rfl

/-- C2 amended: whenever every configured store lookup of every field is
clean (Set calls succeed, a configured consul source resolves to a value,
a configured redis source has its getter registered), the Seed call
completes and leaves every field at exactly the spec's
last-applicable-source value over the fixed order Seed, Env, File,
Consul, Redis and then the deferred Flag, non-applicable sources not
overwriting. The cleanliness premise is forced by the counterexample: a
failing consul lookup skips the field's redis source, breaking the pure
precedence order. -/
theorem seed_precedence :
    ∀ (ctx : SeedCtx) (fields : List CField),
      (∀ f ∈ fields, cleanField ctx f) →
      ∃ sts err, seedRun ctx fields = .ok (sts, err) ∧
        sts.map (fun st => st.cell) = fields.map (fun f => specFinal ctx f) ∧
        sts.map (fun st => st.field.name) = fields.map (fun f => f.name) := by
  intro ctx fields hc
  have h1 := seedLoop_clean ctx fields hc
  have h2 := applyFlags_clean ctx fields (fun f hf => (hc f hf).1)
  have hrun : ∃ err, seedRun ctx fields =
      .ok (fields.map (fun f =>
        ⟨f, specFinal ctx f, loopSeeded ctx f || (appFlag ctx f).isSome⟩), err) := by
    rw [seedRun.eq_def, h1]
    dsimp only
    rw [h2]
    dsimp only
    by_cases hl : (unseededMsg (fields.map (fun f =>
        ⟨f, specFinal ctx f, loopSeeded ctx f || (appFlag ctx f).isSome⟩))).length > 0
    · exact ⟨some _, by rw [if_pos hl]⟩
    · exact ⟨none, by rw [if_neg hl]⟩
  obtain ⟨err, herr⟩ := hrun
  refine ⟨_, err, herr, ?_, ?_⟩
  · rw [List.map_map]
    rfl
  · rw [List.map_map]
    rfl

def fieldC2 : CField where
  name := "f2"
  sources := fun s =>
    match s with
    | Source.seed => some "A"
    | Source.consul => some "ck"
    | Source.redis => some "rk"
    | _ => none
  setOk := fun _ _ => true

/-- Counterexample to C2 as stated: with a seed literal "A", a consul
lookup that errors and a redis lookup that would yield "RV" at store
version 5, the last applicable source in the claimed fixed order is redis
(value "RV"), yet the code leaves the field at the seed value "A" — the
consul failure skipped the redis block, so a later applicable source did
not overwrite. -/
theorem seed_precedence_counterexample :
    specFinal ctxC1 fieldC2 = some ("RV", 5) ∧
    (seedRun ctxC1 [fieldC2]).map (fun r => r.fst.map (·.cell)) =
      .ok [some ("A", 0)] :=
  ⟨rfl, rfl⟩

/-- Witness for the amended C2 at the spec's own precedence example: a
field with Seed "DEBUG" and an env variable set to "INFO" and no flag
present ends seeding at "INFO". -/
theorem seed_precedence_witness :
    (∃ sts err, seedRun ctxScratch [fieldScratch] = .ok (sts, err) ∧
      sts.map (fun st => st.cell) =
        [fieldScratch].map (fun f => specFinal ctxScratch f) ∧
      sts.map (fun st => st.field.name) = [fieldScratch].map (fun f => f.name)) ∧
    specFinal ctxScratch fieldScratch = some ("INFO", 0) := by
  refine ⟨seed_precedence ctxScratch [fieldScratch] ?_, rfl⟩
  intro f hf
  rw [List.mem_singleton] at hf
  subst hf
  refine ⟨fun v ver => rfl, fun key hk => ?_, fun key hk => ?_⟩
  · simp [fieldScratch] at hk
  · simp [fieldScratch] at hk

/-! Redis poll watcher (monitor/redis/watcher.go). -/

/-- Per-key state of the poll watcher: the configured key with its local
version counter and the last stored content digest. The three parallel
slices keys, versions and hashes of equal length are modelled as one list
of per-key slots. -/
structure KeySlot where
  key : String
  version : Nat
  hash : String
deriving DecidableEq, Repr

/-- Initial slots built by New: every version counter zero, every digest
empty. -/
def newSlots (keys : List String) : List KeySlot :=
  keys.map (fun k => ⟨k, 0, ""⟩)

/-- Per-key body of the getValues loop, consuming the fetched values in
lockstep with the slots (values[i] belongs to slot i; the store returns
one entry per requested key, so the lists have equal length — a missing
entry is treated like a nil value here). A nil value is skipped; an
unchanged digest is skipped; otherwise the key's version counter
increments by exactly one, the new digest is stored and a change with the
new version joins the batch. The digest function (md5 hex in the code, an
external library) is the parameter hfn. -/
def pollSlots (hfn : String → String) :
    List KeySlot → List (Option String) → List KeySlot × List Change
  | [], _ => ([], [])
  | s :: ss, vals =>
    match vals.head? with
    | none =>
      let r := pollSlots hfn ss vals.tail
      (s :: r.fst, r.snd)
    | some none =>
      let r := pollSlots hfn ss vals.tail
      (s :: r.fst, r.snd)
    | some (some value) =>
      if hfn value = s.hash then
        let r := pollSlots hfn ss vals.tail
        (s :: r.fst, r.snd)
      else
        let r := pollSlots hfn ss vals.tail
        (⟨s.key, s.version + 1, hfn value⟩ :: r.fst,
          ⟨Source.redis, s.key, value, s.version + 1⟩ :: r.snd)

/-- One getValues tick: a failed MGET is logged and the whole tick
skipped; an empty batch sends nothing; otherwise the batch goes to the
output channel as one unit (the Option: none means nothing was sent). -/
def getValues (hfn : String → String) (fetch : Except Unit (List (Option String)))
    (slots : List KeySlot) : List KeySlot × Option (List Change) :=
  match fetch with
  | .error _ => (slots, none)
  | .ok values =>
    let r := pollSlots hfn slots values
    if r.snd.isEmpty then (r.fst, none) else (r.fst, some r.snd)

/-- The poll loop over a finite schedule of tick fetch results, returning
the final state and the batches actually sent, in order. -/
def pollTicks (hfn : String → String) :
    List (Except Unit (List (Option String))) → List KeySlot →
      List KeySlot × List (List Change)
  | [], slots => (slots, [])
  | f :: fs, slots =>
    let r := getValues hfn f slots
    let rest := pollTicks hfn fs r.fst
    match r.snd with
    | none => rest
    | some b => (rest.fst, b :: rest.snd)

/-- C9: a failed bulk fetch skips the tick entirely: no per-key hash or
version state is mutated, nothing is sent on the channel, and the poll
loop continues with the remaining ticks exactly as if the failed tick had
not happened. -/
theorem poll_fetch_error_skips_tick :
    ∀ (hfn : String → String) (u : Unit) (slots : List KeySlot)
      (fetches : List (Except Unit (List (Option String)))),
      getValues hfn (.error u) slots = (slots, none) ∧
      pollTicks hfn (.error u :: fetches) slots = pollTicks hfn fetches slots :=
  fun _ _ _ _ => ⟨rfl, rfl⟩

/-- The unchanged-content condition for one tick: every fetched value is
absent or digests to the slot's stored hash. -/
def unchanged (hfn : String → String) : List KeySlot → List (Option String) → Bool
  | [], _ => true
  | s :: ss, vals =>
    (match vals.head? with
     | none => true
     | some none => true
     | some (some v) => hfn v == s.hash) && unchanged hfn ss vals.tail

/-- An unchanged tick leaves every slot untouched and produces no
change. -/
theorem pollSlots_unchanged (hfn : String → String) (slots : List KeySlot)
    (vals : List (Option String)) (h : unchanged hfn slots vals = true) :
    pollSlots hfn slots vals = (slots, []) := by
  induction slots generalizing vals with
  | nil => rfl
  | cons s ss ih =>
    rw [unchanged, Bool.and_eq_true] at h
    obtain ⟨h1, h2⟩ := h
    rw [pollSlots]
    cases hv : vals.head? with
    | none =>
      dsimp only
      rw [ih vals.tail h2]
    | some ov =>
      rw [hv] at h1
      cases ov with
      | none =>
        dsimp only
        rw [ih vals.tail h2]
      | some v =>
        dsimp only at h1 ⊢
        rw [if_pos (beq_iff_eq.mp h1), ih vals.tail h2]

/-- C5: a poll tick whose fetched content is unchanged for every key (or
absent) mutates no hash or version state and sends nothing, and this
holds across arbitrarily many repeated ticks with that same content. -/
theorem poll_unchanged_noop :
    ∀ (hfn : String → String) (slots : List KeySlot)
      (values : List (Option String)),
      unchanged hfn slots values = true →
      ∀ n, pollTicks hfn (List.replicate n (.ok values)) slots = (slots, []) := by
  intro hfn slots values h n
  have hg : getValues hfn (.ok values) slots = (slots, none) := by
    rw [getValues, pollSlots_unchanged hfn slots values h]
    rfl
  induction n with
  | zero => rfl
  | succ n ih =>
    rw [List.replicate_succ, pollTicks, hg]
    exact ih

def slotsW5 : List KeySlot := [⟨"a", 3, "x"⟩]

/-- Witness for C5 at a concrete input: with an identity digest function,
a slot whose stored digest already matches the fetched value, two
repeated ticks emit nothing and change nothing. -/
theorem poll_unchanged_noop_witness :
    pollTicks (fun v => v) (List.replicate 2 (.ok [some "x"])) slotsW5 =
      (slotsW5, []) :=
  poll_unchanged_noop (fun v => v) slotsW5 [some "x"] (by decide) 2

/-- pollSlots preserves the key list (keys are fixed at construction). -/
theorem pollSlots_keys (hfn : String → String) (slots : List KeySlot)
    (vals : List (Option String)) :
    (pollSlots hfn slots vals).fst.map (fun t => t.key) =
      slots.map (fun t => t.key) := by
  induction slots generalizing vals with
  | nil => rfl
  | cons s ss ih =>
    rw [pollSlots]
    cases hv : vals.head? with
    | none =>
      dsimp only
      rw [List.map_cons, List.map_cons, ih]
    | some ov =>
      cases ov with
      | none =>
        dsimp only
        rw [List.map_cons, List.map_cons, ih]
      | some v =>
        dsimp only
        by_cases hc : hfn v = s.hash
        · rw [if_pos hc]
          dsimp only
          rw [List.map_cons, List.map_cons, ih]
        · rw [if_neg hc]
          dsimp only
          rw [List.map_cons, List.map_cons, ih]

/-- Every emitted change's key is one of the slots' keys. -/
theorem pollSlots_change_keys (hfn : String → String) (slots : List KeySlot)
    (vals : List (Option String)) :
    ∀ c ∈ (pollSlots hfn slots vals).snd, c.key ∈ slots.map (fun t => t.key) := by
  induction slots generalizing vals with
  | nil => intro c hc; exact absurd hc (by simp [pollSlots])
  | cons s ss ih =>
    intro c hc
    rw [pollSlots] at hc
    cases hv : vals.head? with
    | none =>
      rw [hv] at hc
      dsimp only at hc
      rw [List.map_cons]
      exact List.mem_cons_of_mem _ (ih vals.tail c hc)
    | some ov =>
      cases ov with
      | none =>
        rw [hv] at hc
        dsimp only at hc
        rw [List.map_cons]
        exact List.mem_cons_of_mem _ (ih vals.tail c hc)
      | some v =>
        rw [hv] at hc
        dsimp only at hc
        by_cases hcst : hfn v = s.hash
        · rw [if_pos hcst] at hc
          dsimp only at hc
          rw [List.map_cons]
          exact List.mem_cons_of_mem _ (ih vals.tail c hc)
        · rw [if_neg hcst] at hc
          dsimp only at hc
          rw [List.map_cons]
          rcases List.mem_cons.mp hc with hceq | hmem
          · subst hceq
            exact List.mem_cons_self _ _
          · exact List.mem_cons_of_mem _ (ih vals.tail c hmem)

/-- Changes of a tick touch no key outside the slot list. -/
theorem pollSlots_filter_nil (hfn : String → String) (ss : List KeySlot)
    (vals : List (Option String)) (k : String)
    (hk : k ∉ ss.map (fun t => t.key)) :
    (pollSlots hfn ss vals).snd.filter (fun c => c.key == k) = [] := by
  rw [List.filter_eq_nil_iff]
  intro c hc
  have hmem := pollSlots_change_keys hfn ss vals c hc
  simp only [beq_iff_eq]
  intro hkey
  exact hk (hkey ▸ hmem)

/-- One tick, per slot: either the slot is untouched and the batch holds
no change for its key, or its version counter increments by exactly one
and the batch holds exactly one change for its key carrying the new
version. -/
theorem pollSlots_index (hfn : String → String) (slots : List KeySlot)
    (vals : List (Option String)) (i : Nat) (s : KeySlot)
    (hnd : (slots.map (fun t => t.key)).Nodup)
    (hs : slots.get? i = some s) :
    ∃ s2, (pollSlots hfn slots vals).fst.get? i = some s2 ∧ s2.key = s.key ∧
      ((s2 = s ∧
        (pollSlots hfn slots vals).snd.filter (fun c => c.key == s.key) = []) ∨
       (s2.version = s.version + 1 ∧ ∃ val,
        (pollSlots hfn slots vals).snd.filter (fun c => c.key == s.key) =
          [⟨Source.redis, s.key, val, s.version + 1⟩])) := by
  induction slots generalizing vals i with
  | nil => cases hs
  | cons s0 ss ih =>
    rw [List.map_cons, List.nodup_cons] at hnd
    obtain ⟨hnotin, hndss⟩ := hnd
    cases i with
    | zero =>
      have hs0 : s0 = s := by simpa using hs
      subst hs0
      rw [pollSlots]
      cases hv : vals.head? with
      | none =>
        dsimp only
        exact ⟨s0, rfl, rfl, Or.inl ⟨rfl, pollSlots_filter_nil hfn ss vals.tail s0.key hnotin⟩⟩
      | some ov =>
        cases ov with
        | none =>
          dsimp only
          exact ⟨s0, rfl, rfl,
            Or.inl ⟨rfl, pollSlots_filter_nil hfn ss vals.tail s0.key hnotin⟩⟩
        | some v =>
          dsimp only
          by_cases hcst : hfn v = s0.hash
          · rw [if_pos hcst]
            dsimp only
            exact ⟨s0, rfl, rfl,
              Or.inl ⟨rfl, pollSlots_filter_nil hfn ss vals.tail s0.key hnotin⟩⟩
          · rw [if_neg hcst]
            dsimp only
            refine ⟨⟨s0.key, s0.version + 1, hfn v⟩, rfl, rfl, Or.inr ⟨rfl, v, ?_⟩⟩
            rw [List.filter_cons]
            simp only [beq_self_eq_true, if_true]
            rw [pollSlots_filter_nil hfn ss vals.tail s0.key hnotin]
    | succ j =>
      have hsj : ss.get? j = some s := by simpa using hs
      have hmem : s.key ∈ ss.map (fun t => t.key) :=
        List.mem_map_of_mem _ (List.get?_mem hsj)
      have hne : s0.key ≠ s.key := fun h => hnotin (h ▸ hmem)
      obtain ⟨s2, hget, hkey, hdisj⟩ := ih vals.tail j hndss hsj
      rw [pollSlots]
      cases hv : vals.head? with
      | none =>
        dsimp only
        exact ⟨s2, hget, hkey, hdisj⟩
      | some ov =>
        cases ov with
        | none =>
          dsimp only
          exact ⟨s2, hget, hkey, hdisj⟩
        | some v =>
          dsimp only
          by_cases hcst : hfn v = s0.hash
          · rw [if_pos hcst]
            dsimp only
            exact ⟨s2, hget, hkey, hdisj⟩
          · rw [if_neg hcst]
            dsimp only
            have hfil : (List.filter (fun c => c.key == s.key)
                ((⟨Source.redis, s0.key, v, s0.version + 1⟩ : Change) ::
                  (pollSlots hfn ss vals.tail).snd)) =
                (pollSlots hfn ss vals.tail).snd.filter (fun c => c.key == s.key) := by
              rw [List.filter_cons]
              simp [beq_iff_eq, hne]
            refine ⟨s2, hget, hkey, ?_⟩
            rw [hfil]
            exact hdisj

/-- getValues on a successful fetch: the state comes from pollSlots and
the batch is sent exactly when non-empty. -/
theorem getValues_ok (hfn : String → String) (values : List (Option String))
    (slots : List KeySlot) :
    getValues hfn (.ok values) slots =
      ((pollSlots hfn slots values).fst,
        if (pollSlots hfn slots values).snd.isEmpty then none
        else some (pollSlots hfn slots values).snd) := by
  rw [getValues]
  by_cases hemp : (pollSlots hfn slots values).snd.isEmpty
  · rw [if_pos hemp, if_pos hemp]
  · rw [if_neg hemp, if_neg hemp]

/-- Across any schedule of ticks, per slot: the versions of the changes
emitted for that slot's key form the consecutive run starting right above
the slot's starting version, and the final counter equals the starting
version plus the number of emitted changes. -/
theorem pollTicks_index (hfn : String → String)
    (fetches : List (Except Unit (List (Option String)))) (slots : List KeySlot)
    (i : Nat) (s : KeySlot)
    (hnd : (slots.map (fun t => t.key)).Nodup)
    (hs : slots.get? i = some s) :
    ∃ s2 m, (pollTicks hfn fetches slots).fst.get? i = some s2 ∧
      s2.key = s.key ∧ s2.version = s.version + m ∧
      (((pollTicks hfn fetches slots).snd.flatten.filter
        (fun c => c.key == s.key)).map (fun c => c.version)) =
        List.range' (s.version + 1) m := by
  induction fetches generalizing slots s with
  | nil => exact ⟨s, 0, hs, rfl, rfl, rfl⟩
  | cons f fs ih =>
    cases f with
    | error u => exact ih slots s hnd hs
    | ok values =>
      obtain ⟨s2, hget, hkey, hdisj⟩ := pollSlots_index hfn slots values i s hnd hs
      have hnd2 : ((pollSlots hfn slots values).fst.map (fun t => t.key)).Nodup := by
        rw [pollSlots_keys]; exact hnd
      obtain ⟨s3, m, hget3, hkey3, hver3, hfil3⟩ :=
        ih (pollSlots hfn slots values).fst s2 hnd2 hget
      rw [pollTicks, getValues_ok]
      by_cases hemp : (pollSlots hfn slots values).snd.isEmpty
      · rw [if_pos hemp]
        dsimp only
        rcases hdisj with ⟨hs2, hnil⟩ | ⟨hver, val, hone⟩
        · subst hs2
          exact ⟨s3, m, hget3, hkey ▸ hkey3, by omega, hkey ▸ hfil3⟩
        · exfalso
          rw [List.isEmpty_iff] at hemp
          rw [hemp] at hone
          exact absurd hone (by simp)
      · rw [if_neg hemp]
        dsimp only
        rcases hdisj with ⟨hs2, hnil⟩ | ⟨hver, val, hone⟩
        · subst hs2
          refine ⟨s3, m, hget3, hkey ▸ hkey3, by omega, ?_⟩
          rw [List.flatten_cons, List.filter_append, hnil, List.nil_append]
          exact hkey ▸ hfil3
        · refine ⟨s3, m + 1, hget3, hkey ▸ hkey3, by omega, ?_⟩
          rw [List.flatten_cons, List.filter_append, hone, List.map_append]
          have hkk : s2.key = s.key := hkey
          rw [hkey] at hfil3
          rw [hfil3, hver] at *
          rw [List.range'_succ]
          rw [show s.version + 1 + 1 = s.version + 2 from rfl] at *
          rfl

/-- C4: for every key configured in the poll watcher (configured keys are
distinct), starting from the state New creates (every version counter
zero), the changes emitted for that key across any schedule of ticks
carry versions exactly 1, 2, ..., m in emission order, and the key's
counter ends at exactly m, the number of changes emitted for it: each
emission increments the counter by exactly one, and the counter moves
only on emission. -/
theorem poll_versions_increment_by_one :
    ∀ (hfn : String → String) (keys : List String)
      (fetches : List (Except Unit (List (Option String)))) (i : Nat) (k : String),
      keys.Nodup → keys.get? i = some k →
      ∃ s2 m, (pollTicks hfn fetches (newSlots keys)).fst.get? i = some s2 ∧
        s2.key = k ∧ s2.version = m ∧
        (((pollTicks hfn fetches (newSlots keys)).snd.flatten.filter
          (fun c => c.key == k)).map (fun c => c.version)) = List.range' 1 m := by
  intro hfn keys fetches i k hnd hk
  have h1 : (newSlots keys).map (fun t => t.key) = keys := by
    rw [newSlots, List.map_map]
    exact List.map_id keys
  have h2 : (newSlots keys).get? i = some ⟨k, 0, ""⟩ := by
    rw [newSlots, List.get?_map, hk]
    rfl
  obtain ⟨s2, m, ha, hb, hc2, hd⟩ :=
    pollTicks_index hfn fetches (newSlots keys) i ⟨k, 0, ""⟩ (by rw [h1]; exact hnd) h2
  exact ⟨s2, m, ha, hb, by simpa using hc2, hd⟩

def fetchesW4 : List (Except Unit (List (Option String))) :=
  [.ok [some "x"], .ok [some "y"]]

/-- Witness for C4 at a concrete input: one key, two ticks with changing
content; the emitted versions are the run starting at 1 and the counter
ends at the emission count. -/
theorem poll_versions_increment_by_one_witness :
    ∃ s2 m, (pollTicks (fun v => v) fetchesW4 (newSlots ["a"])).fst.get? 0 = some s2 ∧
      s2.key = "a" ∧ s2.version = m ∧
      (((pollTicks (fun v => v) fetchesW4 (newSlots ["a"])).snd.flatten.filter
        (fun c => c.key == "a")).map (fun c => c.version)) = List.range' 1 m :=
  poll_versions_increment_by_one (fun v => v) ["a"] fetchesW4 0 "a" (by decide) rfl

/-! Consul push watcher (monitor/consul/watcher.go). -/

/-- Key-value pair as delivered by the store's blocking query
(api.KVPair: key, value bytes, ModifyIndex). -/
structure KVPair where
  key : String
  value : String
  modifyIndex : Nat
deriving DecidableEq, Repr

/-- Payload delivered to a watch plan handler (the dynamic interface
value): nil, a full key set (api.KVPairs, what the prefix plan expects),
a single pair (api.KVPair, what the single-key plan expects), or any
other payload, which fails the type assertion. -/
inductive WatchData where
  | nil
  | kvPairs (pp : List KVPair)
  | kvPair (p : KVPair)
  | other

/-- Handler installed by createKeyPrefixPlan: nil data is ignored; a
payload that is not api.KVPairs is logged and ignored; a delivered key
set yields one batch with one change per pair, in delivered order, with
the consul source, the pair's current value and its ModifyIndex as the
version (none models that nothing was sent on the channel). -/
def keyPrefixPlanHandler : WatchData → Option (List Change)
  | WatchData.kvPairs pp =>
    some (pp.map (fun p => ⟨Source.consul, p.key, p.value, p.modifyIndex⟩))
  | _ => none

/-- C6: every notification delivered to a prefix plan carrying n pairs
makes the handler emit one batch of exactly n changes, one per delivered
pair in delivered order, each with the consul source, that pair's current
value and the store's ModifyIndex as version. The handler keeps no state,
so this holds on every notification, re-emitting keys whose values did
not change since the previous one. -/
theorem push_plan_emits_all_pairs :
    ∀ pp : List KVPair, ∃ cc : List Change,
      keyPrefixPlanHandler (WatchData.kvPairs pp) = some cc ∧
      cc.length = pp.length ∧
      List.Forall₂ (fun (p : KVPair) (c : Change) =>
        c = ⟨Source.consul, p.key, p.value, p.modifyIndex⟩) pp cc := by
  intro pp
  refine ⟨pp.map (fun p => Change.mk Source.consul p.key p.value p.modifyIndex),
    ?_, List.length_map _ _, ?_⟩
  · rw [keyPrefixPlanHandler]
  · induction pp with
    | nil => exact List.Forall₂.nil
    | cons p ps ih => exact List.Forall₂.cons rfl ih

/-! Monitor routing and dispatch (the monitor package). -/

/-- Per-source key routing (map from string key to field), as an
association list. -/
abbrev KeyMap := List (String × CField)

/-- The routing table sourceMap (map from source to its key map). -/
abbrev SMap := List (Source × KeyMap)

def kmapFind : KeyMap → String → Option CField
  | [], _ => none
  | (k, f) :: rest, key => if k = key then some f else kmapFind rest key

def smapFind : SMap → Source → Option KeyMap
  | [], _ => none
  | (s, km) :: rest, src => if s = src then some km else smapFind rest src

/-- Observable effect of applying one change in Monitor.applyChange: the
successful Field.Set call it causes, if any. A source missing from the
routing table, a key missing under the source, or a failing Set is logged
and produces nothing. -/
def applyOne (mp : SMap) (c : Change) : Option (String × String × Nat) :=
  match smapFind mp c.source with
  | none => none
  | some km =>
    match kmapFind km c.key with
    | none => none
    | some fld =>
      if fld.setOk c.value c.version then some (fld.name, c.value, c.version)
      else none

/-- Monitor.applyChange over a batch: the sequence of successful
Field.Set calls, in batch order; dropped changes leave no trace and abort
nothing. -/
def applyChange (mp : SMap) (cc : List Change) : List (String × String × Nat) :=
  cc.filterMap (applyOne mp)

/-- A change the dispatcher drops: its source is not in the routing
table, or its key is not found under that source, or Field.Set fails. -/
def dropped (mp : SMap) (c : Change) : Prop :=
  match smapFind mp c.source with
  | none => True
  | some km =>
    match kmapFind km c.key with
    | none => True
    | some fld => fld.setOk c.value c.version = false

/-- C7: dispatch processes every change of a batch independently: the
batch's effect decomposes change by change, and a dropped change (unknown
source, unknown key, or failing Set) is removed alone, all other changes
of the batch still applying — dispatch never aborts. -/
theorem dispatch_batch_isolation :
    ∀ (mp : SMap) (cc1 : List Change) (c : Change) (cc2 : List Change),
      applyChange mp (cc1 ++ c :: cc2) =
        applyChange mp cc1 ++ applyChange mp [c] ++ applyChange mp cc2 ∧
      (dropped mp c →
        applyChange mp (cc1 ++ c :: cc2) =
          applyChange mp cc1 ++ applyChange mp cc2) := by
  intro mp cc1 c cc2
  have hsplit : ∀ r : Option (String × String × Nat), applyOne mp c = r →
      applyChange mp (c :: cc2) = applyChange mp [c] ++ applyChange mp cc2 := by
    intro r hr
    cases hro : applyOne mp c with
    | none => simp [applyChange, List.filterMap_cons, hro]
    | some b => simp [applyChange, List.filterMap_cons, hro]
  constructor
  · rw [applyChange, List.filterMap_append, ← applyChange, ← applyChange,
      hsplit (applyOne mp c) rfl, List.append_assoc]
  · intro hd
    have hnone : applyOne mp c = none := by
      rw [applyOne]
      rw [dropped] at hd
      cases h1 : smapFind mp c.source with
      | none => rfl
      | some km =>
        rw [h1] at hd
        dsimp only at hd
        dsimp only
        cases h2 : kmapFind km c.key with
        | none => rfl
        | some fld =>
          rw [h2] at hd
          dsimp only at hd
          dsimp only
          rw [if_neg]
          rw [hd]
          simp
    rw [applyChange, List.filterMap_append, ← applyChange, ← applyChange,
      hsplit none hnone]
    have hc1 : applyChange mp [c] = [] := by
      simp [applyChange, List.filterMap_cons, hnone]
    rw [hc1, List.nil_append]

def fieldM7 : CField where
  name := "m7"
  sources := fun s => match s with | Source.consul => some "k" | _ => none
  setOk := fun _ _ => true

def mpW7 : SMap := [(Source.consul, [("k", fieldM7)])]

/-- Witness for C7 at a concrete input: a batch holding one unknown-key
change and one valid change applies exactly the valid one. -/
theorem dispatch_batch_isolation_witness :
    applyChange mpW7 [⟨Source.consul, "nope", "v", 1⟩, ⟨Source.consul, "k", "w", 2⟩] =
      applyChange mpW7 [] ++ applyChange mpW7 [⟨Source.consul, "k", "w", 2⟩] ∧
    applyChange mpW7 [⟨Source.consul, "k", "w", 2⟩] = [("m7", "w", 2)] :=
  ⟨(dispatch_batch_isolation mpW7 []
      ⟨Source.consul, "nope", "v", 1⟩ [⟨Source.consul, "k", "w", 2⟩]).2 True.intro,
    rfl⟩

/-! Monitor construction (New / generateMap). -/

/-- Construction errors of Monitor.New. -/
inductive MonitorErr where
  | nilConfig
  | emptyWatchers
  | duplicateKey (src : Source) (key : String)
deriving DecidableEq, Repr

/-- Map update: replace the source's key map, or append the entry. -/
def smapSet : SMap → Source → KeyMap → SMap
  | [], src, km => [(src, km)]
  | (s, km0) :: rest, src, km =>
    if s = src then (src, km) :: rest else (s, km0) :: smapSet rest src km

/-- All sources, in the model's fixed iteration order for a field's
Sources() map (Go's map iteration order is unspecified; nothing below
depends on the order). -/
def allSources : List Source :=
  [Source.seed, Source.env, Source.flag, Source.file, Source.consul, Source.redis]

/-- The (source, key) pairs of one field's Sources() map. -/
def sourcesList (f : CField) : List (Source × String) :=
  allSources.filterMap (fun s => (f.sources s).map (fun k => (s, k)))

/-- Inner loop of generateMap for one field: the seed source is skipped;
every other source's key is inserted under its source; a key already
present under that source aborts with the duplicate-key error. -/
def insertSources (f : CField) (mp : SMap) :
    List (Source × String) → Except MonitorErr SMap
  | [] => .ok mp
  | (src, key) :: rest =>
    if src = Source.seed then insertSources f mp rest
    else
      match smapFind mp src with
      | none => insertSources f (smapSet mp src [(key, f)]) rest
      | some km =>
        match kmapFind km key with
        | some _ => .error (.duplicateKey src key)
        | none => insertSources f (smapSet mp src ((key, f) :: km)) rest

/-- generateMap's outer loop over the config's fields. -/
def generateMapGo (mp : SMap) : List CField → Except MonitorErr SMap
  | [] => .ok mp
  | f :: fs =>
    match insertSources f mp (sourcesList f) with
    | .error e => .error e
    | .ok mp2 => generateMapGo mp2 fs

/-- generateMap of the monitor package. -/
def generateMap (ff : List CField) : Except MonitorErr SMap :=
  generateMapGo [] ff

/-- Monitor.New: a nil config and an empty watcher list are rejected,
then the routing table is built by generateMap. The watcher list ww is
only stored; no watcher is started during construction (watchers start
later, in the Monitor method). -/
def monitorNew {α : Type} (cfg : Option (List CField)) (ww : List α) :
    Except MonitorErr SMap :=
  match cfg with
  | none => .error .nilConfig
  | some ff => if ww.isEmpty then .error .emptyWatchers else generateMap ff

/-- A (source, key) pair is routed in the table. -/
def smapMem (mp : SMap) (src : Source) (key : String) : Bool :=
  match smapFind mp src with
  | none => false
  | some km => (kmapFind km key).isSome

theorem smapFind_set_self (mp : SMap) (src : Source) (km : KeyMap) :
    smapFind (smapSet mp src km) src = some km := by
  induction mp with
  | nil => simp [smapSet, smapFind]
  | cons p rest ih =>
    obtain ⟨s, km0⟩ := p
    rw [smapSet]
    by_cases h : s = src
    · rw [if_pos h]
      simp [smapFind]
    · rw [if_neg h]
      simp only [smapFind]
      rw [if_neg h]
      exact ih

theorem smapFind_set_other (mp : SMap) (src s : Source) (km : KeyMap)
    (h : s ≠ src) : smapFind (smapSet mp src km) s = smapFind mp s := by
  induction mp with
  | nil =>
    simp only [smapSet, smapFind]
    rw [if_neg (fun hh => h hh.symm)]
  | cons p rest ih =>
    obtain ⟨s0, km0⟩ := p
    rw [smapSet]
    by_cases h0 : s0 = src
    · rw [if_pos h0]
      simp only [smapFind]
      have hs0 : ¬(src = s) := fun hh => h hh.symm
      rw [if_neg hs0, h0]
      have hs1 : ¬(src = s) := hs0
      rw [if_neg hs1]
    · rw [if_neg h0]
      simp only [smapFind]
      by_cases h1 : s0 = s
      · rw [if_pos h1, if_pos h1]
      · rw [if_neg h1, if_neg h1]
        exact ih

theorem kmapFind_eq_none (km : KeyMap) (k : String) :
    kmapFind km k = none ↔ k ∉ km.map Prod.fst := by
  induction km with
  | nil => simp [kmapFind]
  | cons p rest ih =>
    obtain ⟨k0, f0⟩ := p
    rw [kmapFind, List.map_cons]
    by_cases h : k0 = k
    · rw [if_pos h]
      simp [h]
    · rw [if_neg h]
      rw [ih]
      simp [Ne.symm h]

theorem kmapFind_cons_isSome (km : KeyMap) (key k : String) (f : CField)
    (h : (kmapFind km k).isSome) : (kmapFind ((key, f) :: km) k).isSome := by
  rw [kmapFind]
  by_cases hk : key = k
  · rw [if_pos hk]
    rfl
  · rw [if_neg hk]
    exact h

theorem smapMem_mono_newsrc (mp : SMap) (src s : Source) (km' : KeyMap)
    (k : String) (hnone : smapFind mp src = none) (h : smapMem mp s k = true) :
    smapMem (smapSet mp src km') s k = true := by
  rw [smapMem] at h ⊢
  cases hfind : smapFind mp s with
  | none => rw [hfind] at h; exact absurd h (by simp)
  | some km2 =>
    rw [hfind] at h
    have hne : s ≠ src := by
      intro he
      rw [he, hnone] at hfind
      cases hfind
    rw [smapFind_set_other mp src s km' hne, hfind]
    exact h

theorem smapMem_mono_extend (mp : SMap) (src s : Source) (km : KeyMap)
    (key k : String) (f : CField) (hsome : smapFind mp src = some km)
    (h : smapMem mp s k = true) :
    smapMem (smapSet mp src ((key, f) :: km)) s k = true := by
  rw [smapMem] at h ⊢
  by_cases hse : s = src
  · subst hse
    rw [hsome] at h
    rw [smapFind_set_self]
    exact kmapFind_cons_isSome km key k f h
  · rw [smapFind_set_other mp src s _ hse]
    exact h

/-- Successful insertion preserves routed pairs. -/
theorem insertSources_mono (f : CField) (l : List (Source × String))
    (mp mp' : SMap) (s : Source) (k : String)
    (hins : insertSources f mp l = .ok mp') (h : smapMem mp s k = true) :
    smapMem mp' s k = true := by
  induction l generalizing mp with
  | nil => rw [insertSources] at hins; cases hins; exact h
  | cons p rest ih =>
    obtain ⟨src, key⟩ := p
    rw [insertSources] at hins
    by_cases hseed : src = Source.seed
    · rw [if_pos hseed] at hins
      exact ih mp hins h
    · rw [if_neg hseed] at hins
      cases hfind : smapFind mp src with
      | none =>
        rw [hfind] at hins
        dsimp only at hins
        exact ih _ hins (smapMem_mono_newsrc mp src s [(key, f)] k hfind h)
      | some km =>
        rw [hfind] at hins
        dsimp only at hins
        cases hkm : kmapFind km key with
        | some f0 =>
          rw [hkm] at hins
          cases hins
        | none =>
          rw [hkm] at hins
          dsimp only at hins
          exact ih _ hins (smapMem_mono_extend mp src s km key k f hfind h)

/-- Successful insertion routes every inserted non-seed pair. -/
theorem insertSources_adds (f : CField) (l : List (Source × String))
    (mp mp' : SMap) (src : Source) (key : String)
    (hmem : (src, key) ∈ l) (hseed : src ≠ Source.seed)
    (hins : insertSources f mp l = .ok mp') :
    smapMem mp' src key = true := by
  induction l generalizing mp with
  | nil => cases hmem
  | cons p rest ih =>
    obtain ⟨s0, k0⟩ := p
    rw [insertSources] at hins
    rcases List.mem_cons.mp hmem with heq | hmem2
    · injection heq with h1 h2
      subst h1; subst h2
      rw [if_neg hseed] at hins
      cases hfind : smapFind mp src with
      | none =>
        rw [hfind] at hins
        dsimp only at hins
        refine insertSources_mono f rest _ mp' src key hins ?_
        rw [smapMem, smapFind_set_self]
        simp [kmapFind]
      | some km =>
        rw [hfind] at hins
        dsimp only at hins
        cases hkm : kmapFind km key with
        | some f0 => rw [hkm] at hins; cases hins
        | none =>
          rw [hkm] at hins
          dsimp only at hins
          refine insertSources_mono f rest _ mp' src key hins ?_
          rw [smapMem, smapFind_set_self]
          simp [kmapFind]
    · by_cases hs0 : s0 = Source.seed
      · rw [if_pos hs0] at hins
        exact ih mp hmem2 hins
      · rw [if_neg hs0] at hins
        cases hfind : smapFind mp s0 with
        | none =>
          rw [hfind] at hins
          dsimp only at hins
          exact ih _ hmem2 hins
        | some km =>
          rw [hfind] at hins
          dsimp only at hins
          cases hkm : kmapFind km k0 with
          | some f0 => rw [hkm] at hins; cases hins
          | none =>
            rw [hkm] at hins
            dsimp only at hins
            exact ih _ hmem2 hins

/-- Inserting a pair already routed fails with a duplicate-key error. -/
theorem insertSources_dup (f : CField) (l : List (Source × String))
    (mp : SMap) (src : Source) (key : String)
    (hmem : (src, key) ∈ l) (hseed : src ≠ Source.seed)
    (h : smapMem mp src key = true) :
    ∃ s' k', insertSources f mp l = .error (.duplicateKey s' k') := by
  induction l generalizing mp with
  | nil => cases hmem
  | cons p rest ih =>
    obtain ⟨s0, k0⟩ := p
    rcases List.mem_cons.mp hmem with heq | hmem2
    · injection heq with h1 h2
      subst h1; subst h2
      rw [smapMem] at h
      cases hfind : smapFind mp src with
      | none => rw [hfind] at h; exact absurd h (by simp)
      | some km =>
        rw [hfind] at h
        dsimp only at h
        cases hkm : kmapFind km key with
        | none => rw [hkm] at h; exact absurd h (by simp)
        | some f0 =>
          refine ⟨src, key, ?_⟩
          rw [insertSources, if_neg hseed, hfind]
          dsimp only
          rw [hkm]
    · rw [insertSources]
      by_cases hs0 : s0 = Source.seed
      · rw [if_pos hs0]
        exact ih mp hmem2 h
      · rw [if_neg hs0]
        cases hfind : smapFind mp s0 with
        | none =>
          dsimp only
          exact ih _ hmem2 (smapMem_mono_newsrc mp s0 src [(k0, f)] key hfind h)
        | some km =>
          dsimp only
          cases hkm : kmapFind km k0 with
          | some f0 => exact ⟨s0, k0, rfl⟩
          | none =>
            dsimp only
            exact ih _ hmem2 (smapMem_mono_extend mp s0 src km k0 key f hfind h)

/-- insertSources only ever fails with a duplicate-key error. -/
theorem insertSources_error (f : CField) (l : List (Source × String))
    (mp : SMap) (e : MonitorErr)
    (h : insertSources f mp l = .error e) :
    ∃ src key, e = .duplicateKey src key := by
  induction l generalizing mp with
  | nil => rw [insertSources] at h; cases h
  | cons p rest ih =>
    obtain ⟨s0, k0⟩ := p
    rw [insertSources] at h
    by_cases hs0 : s0 = Source.seed
    · rw [if_pos hs0] at h
      exact ih mp h
    · rw [if_neg hs0] at h
      cases hfind : smapFind mp s0 with
      | none =>
        rw [hfind] at h
        dsimp only at h
        exact ih _ h
      | some km =>
        rw [hfind] at h
        dsimp only at h
        cases hkm : kmapFind km k0 with
        | some f0 =>
          rw [hkm] at h
          cases h
          exact ⟨s0, k0, rfl⟩
        | none =>
          rw [hkm] at h
          dsimp only at h
          exact ih _ h

/-- Insertion keeps every per-source key list duplicate-free and never
creates a seed entry. -/
theorem insertSources_inv (f : CField) (l : List (Source × String))
    (mp mp' : SMap) (hins : insertSources f mp l = .ok mp')
    (hinv : ∀ src km, smapFind mp src = some km → (km.map Prod.fst).Nodup)
    (hseed : smapFind mp Source.seed = none) :
    (∀ src km, smapFind mp' src = some km → (km.map Prod.fst).Nodup) ∧
    smapFind mp' Source.seed = none := by
  induction l generalizing mp with
  | nil => rw [insertSources] at hins; cases hins; exact ⟨hinv, hseed⟩
  | cons p rest ih =>
    obtain ⟨s0, k0⟩ := p
    rw [insertSources] at hins
    by_cases hs0 : s0 = Source.seed
    · rw [if_pos hs0] at hins
      exact ih mp hins hinv hseed
    · rw [if_neg hs0] at hins
      cases hfind : smapFind mp s0 with
      | none =>
        rw [hfind] at hins
        dsimp only at hins
        refine ih _ hins ?_ ?_
        · intro src km hsk
          by_cases hss : src = s0
          · subst hss
            rw [smapFind_set_self] at hsk
            cases hsk
            simp
          · rw [smapFind_set_other mp s0 src _ hss] at hsk
            exact hinv src km hsk
        · rw [smapFind_set_other mp s0 Source.seed _ (fun he => hs0 he.symm)]
          exact hseed
      | some km =>
        rw [hfind] at hins
        dsimp only at hins
        cases hkm : kmapFind km k0 with
        | some f0 => rw [hkm] at hins; cases hins
        | none =>
          rw [hkm] at hins
          dsimp only at hins
          refine ih _ hins ?_ ?_
          · intro src km2 hsk
            by_cases hss : src = s0
            · subst hss
              rw [smapFind_set_self] at hsk
              cases hsk
              rw [List.map_cons]
              exact List.nodup_cons.mpr
                ⟨(kmapFind_eq_none km k0).mp hkm, hinv src km hfind⟩
            · rw [smapFind_set_other mp s0 src _ hss] at hsk
              exact hinv src km2 hsk
          · rw [smapFind_set_other mp s0 Source.seed _ (fun he => hs0 he.symm)]
            exact hseed

/-- The generateMap loop keeps the routing-table invariant. -/
theorem generateMapGo_inv (ff : List CField) (mp mp' : SMap)
    (h : generateMapGo mp ff = .ok mp')
    (hinv : ∀ src km, smapFind mp src = some km → (km.map Prod.fst).Nodup)
    (hseed : smapFind mp Source.seed = none) :
    (∀ src km, smapFind mp' src = some km → (km.map Prod.fst).Nodup) ∧
    smapFind mp' Source.seed = none := by
  induction ff generalizing mp with
  | nil => rw [generateMapGo] at h; cases h; exact ⟨hinv, hseed⟩
  | cons f fs ih =>
    rw [generateMapGo] at h
    cases hins : insertSources f mp (sourcesList f) with
    | error e => rw [hins] at h; cases h
    | ok mp2 =>
      rw [hins] at h
      dsimp only at h
      obtain ⟨hinv2, hseed2⟩ := insertSources_inv f _ mp mp2 hins hinv hseed
      exact ih mp2 h hinv2 hseed2

/-- Every configured pair of a field shows up in its sources list. -/
theorem sourcesList_mem (f : CField) (src : Source) (key : String)
    (h : f.sources src = some key) : (src, key) ∈ sourcesList f := by
  rw [sourcesList, List.mem_filterMap]
  refine ⟨src, ?_, ?_⟩
  · cases src <;> simp [allSources]
  · rw [h]
    rfl

/-- A pair already routed makes the remaining generateMap loop fail with
a duplicate-key error as soon as some later field claims it. -/
theorem generateMapGo_dup (fs : List CField) (mp : SMap) (j : Nat)
    (fj : CField) (src : Source) (key : String)
    (hj : fs.get? j = some fj) (hsrc : fj.sources src = some key)
    (hseed : src ≠ Source.seed) (hmem : smapMem mp src key = true) :
    ∃ s' k', generateMapGo mp fs = .error (.duplicateKey s' k') := by
  induction fs generalizing mp j with
  | nil => cases hj
  | cons f fs ih =>
    cases j with
    | zero =>
      have hf : f = fj := by simpa using hj
      subst hf
      obtain ⟨s', k', herr⟩ := insertSources_dup f (sourcesList f) mp src key
        (sourcesList_mem f src key hsrc) hseed hmem
      refine ⟨s', k', ?_⟩
      rw [generateMapGo, herr]
    | succ j =>
      have hj2 : fs.get? j = some fj := by simpa using hj
      rw [generateMapGo]
      cases hins : insertSources f mp (sourcesList f) with
      | error e =>
        obtain ⟨s', k', he⟩ := insertSources_error f _ mp e hins
        exact ⟨s', k', by rw [he]⟩
      | ok mp2 =>
        dsimp only
        exact ih mp2 j hj2 (insertSources_mono f _ mp mp2 src key hins hmem)

/-- Two fields claiming the same non-seed (source, key) pair make the
generateMap loop fail with a duplicate-key error, from any starting
table. -/
theorem generateMap_dup_aux (ff : List CField) (i j : Nat) (fi fj : CField)
    (src : Source) (key : String) (mp : SMap)
    (hij : i < j) (hi : ff.get? i = some fi) (hj : ff.get? j = some fj)
    (hsi : fi.sources src = some key) (hsj : fj.sources src = some key)
    (hseed : src ≠ Source.seed) :
    ∃ s' k', generateMapGo mp ff = .error (.duplicateKey s' k') := by
  induction ff generalizing i j mp with
  | nil => cases hi
  | cons f fs ih =>
    cases i with
    | zero =>
      have hf : f = fi := by simpa using hi
      subst hf
      cases j with
      | zero => exact absurd hij (by omega)
      | succ j =>
        have hj2 : fs.get? j = some fj := by simpa using hj
        rw [generateMapGo]
        cases hins : insertSources f mp (sourcesList f) with
        | error e =>
          obtain ⟨s', k', he⟩ := insertSources_error f _ mp e hins
          exact ⟨s', k', by rw [he]⟩
        | ok mp2 =>
          dsimp only
          exact generateMapGo_dup fs mp2 j fj src key hj2 hsj hseed
            (insertSources_adds f (sourcesList f) mp mp2 src key
              (sourcesList_mem f src key hsi) hseed hins)
    | succ i =>
      cases j with
      | zero => exact absurd hij (by omega)
      | succ j =>
        have hi2 : fs.get? i = some fi := by simpa using hi
        have hj2 : fs.get? j = some fj := by simpa using hj
        rw [generateMapGo]
        cases hins : insertSources f mp (sourcesList f) with
        | error e =>
          obtain ⟨s', k', he⟩ := insertSources_error f _ mp e hins
          exact ⟨s', k', by rw [he]⟩
        | ok mp2 =>
          dsimp only
          exact ih i j mp2 (by omega) hi2 hj2

/-- C8: Monitor construction builds a routing table in which within one
source each key maps to at most one field (the key lists are
duplicate-free) and the seed source has no entry; and whenever two fields
claim the same non-seed (source, key) pair, construction fails with a
duplicate-key error — Monitor.New only builds the table and stores the
watchers, so no watcher has been started when the error is returned. -/
theorem monitor_routing_uniqueness :
    (∀ (ff : List CField) (mp : SMap), generateMap ff = .ok mp →
      (∀ src km, smapFind mp src = some km → (km.map Prod.fst).Nodup) ∧
      smapFind mp Source.seed = none) ∧
    (∀ (α : Type) (ff : List CField) (ww : List α) (i j : Nat)
        (fi fj : CField) (src : Source) (key : String),
      ww ≠ [] → i < j → ff.get? i = some fi → ff.get? j = some fj →
      fi.sources src = some key → fj.sources src = some key →
      src ≠ Source.seed →
      ∃ s' k', monitorNew (some ff) ww = .error (.duplicateKey s' k')) := by
  constructor
  · intro ff mp h
    rw [generateMap] at h
    exact generateMapGo_inv ff [] mp h
      (fun src km h2 => by rw [smapFind] at h2; cases h2) rfl
  · intro α ff ww i j fi fj src key hww hij hi hj hsi hsj hseed
    rw [monitorNew]
    rw [if_neg (fun he => hww (List.isEmpty_iff.mp he))]
    rw [generateMap]
    exact generateMap_dup_aux ff i j fi fj src key [] hij hi hj hsi hsj hseed

def fdupA : CField where
  name := "fa"
  sources := fun s => match s with | Source.consul => some "k" | _ => none
  setOk := fun _ _ => true

def fdupB : CField where
  name := "fb"
  sources := fun s => match s with | Source.consul => some "k" | _ => none
  setOk := fun _ _ => true

/-- Witness for C8 at a concrete input: two fields both claiming the
consul key "k" make construction fail with a duplicate-key error. -/
theorem monitor_routing_uniqueness_witness :
    ∃ s' k', monitorNew (some [fdupA, fdupB]) [()] =
      .error (.duplicateKey s' k') :=
  monitor_routing_uniqueness.2 Unit [fdupA, fdupB] [()] 0 1 fdupA fdupB
    Source.consul "k" (by simp) (by omega) rfl rfl rfl rfl (by decide)
